import Mathlib

/-!
Verification development for the calendar-ai conversational orchestrator
(`src/app/actions.tsx`).  The TypeScript source is shallowly embedded:

* JavaScript primitive values that flow through tool-call argument payloads
  are modelled by `JSValue` (with `none : Option JSValue` playing the role
  of `undefined`), and JavaScript truthiness by `truthy`.
* The regular expressions used by the clarification gate are literal
  substring patterns except for one case-insensitive alternation
  (`dont ... (operate|execute|schedule|book|create)`), which is modelled
  directly on character lists.  JavaScript `\s` is modelled by the ASCII
  whitespace characters.
* Network calls (the model completion endpoint and the Google Calendar
  provider) are modelled by outcome oracles: an `Except`/sum value says
  what the awaited call did (succeeded with a payload, or rejected).
* The file contains two concatenated variants of the source; definitions
  named `...Legacy` embed the second (older) variant where it differs.
-/

namespace CalendarAI

/-! ### JavaScript-like values and argument payloads -/

/-- A JavaScript primitive value as it appears in parsed tool-call argument
objects.  `undefined` is represented by `none : Option JSValue` at use
sites.  Arrays in these payloads only carry strings (attendee emails). -/
inductive JSValue
  | vstr (s : String)
  | vnum (n : Int)
  | vbool (b : Bool)
  | vnull
  | varr (elems : List String)
deriving DecidableEq, Repr

/-- JavaScript truthiness of a defined value: `""`, `0`, `false`, `null`
are falsy; arrays are objects, hence truthy. -/
def truthyV : JSValue → Bool
  | .vstr s => !s.isEmpty
  | .vnum n => n != 0
  | .vbool b => b
  | .vnull => false
  | .varr _ => true

/-- JavaScript truthiness including `undefined` (`none`). -/
def truthy : Option JSValue → Bool
  | none => false
  | some v => truthyV v

/-- A parsed JSON object, as produced by `JSON.parse` on an argument
payload: a key/value mapping. -/
abbrev Args := List (String × JSValue)

/-- Property lookup on a parsed object (`args.key`); a missing key is
`undefined`. -/
def getField (a : Args) (k : String) : Option JSValue :=
  match a.find? (fun p => p.1 == k) with
  | some p => some p.2
  | none => none

/-- The raw `arguments` string attached to a tool call: it may be missing,
may fail to parse as JSON, or parses to an object. -/
inductive ArgsPayload
  | absent
  | malformed (raw : String)
  | wellFormed (fields : Args)
deriving DecidableEq, Repr

/-- Source `parseArgs`: a missing payload and a JSON parse failure both
yield the empty object. -/
def parseArgs : ArgsPayload → Args
  | .absent => []
  | .malformed _ => []
  | .wellFormed f => f

/-- JavaScript `a || b` on an optional string versus a default: falsy
(`undefined` or `""`) falls through to the default. -/
def orStrD (o : Option String) (d : String) : String :=
  match o with
  | some s => if s == "" then d else s
  | none => d

/-- Source `ToolCallLike.function`: the requested tool name and raw
arguments. -/
structure FnCall where
  name : String
  arguments : ArgsPayload
deriving DecidableEq, Repr

/-- Source `ToolCallLike`: a tool-call request emitted by the model; the
legacy single-function form has no id. -/
structure ToolCallLike where
  id : Option String := none
  function : FnCall
deriving DecidableEq, Repr

/-! ### Pattern matching for the clarification gate

The regular expressions of the gate are plain substring patterns, their
case-insensitive variants, and one genuine regex
(the English no-action regex with five verb alternatives). -/

/-- All suffixes of a character list, longest first. -/
def tails' : List Char → List (List Char)
  | [] => [[]]
  | c :: cs => (c :: cs) :: tails' cs

/-- Case-sensitive substring test (`/literal/.test(question)`). -/
def containsSub (hay pat : String) : Bool :=
  (tails' hay.toList).any (fun t => pat.toList.isPrefixOf t)

/-- Case-insensitive list prefix test. -/
def isPrefixOfCI : List Char → List Char → Bool
  | [], _ => true
  | _ :: _, [] => false
  | p :: ps, c :: cs => (p.toLower == c.toLower) && isPrefixOfCI ps cs

/-- Case-insensitive substring test (`/literal/i.test(question)`). -/
def containsSubCI (hay pat : String) : Bool :=
  (tails' hay.toList).any (fun t => isPrefixOfCI pat.toList t)

/-- ASCII whitespace, modelling the JavaScript `\s` character class. -/
def jsWhitespace (c : Char) : Bool :=
  c == ' ' || c == '\t' || c == '\n' || c == '\r' || c == '\x0b' || c == '\x0c'

/-- The literal English contraction do-not (written as characters). -/
def dontWord : List Char := ['d', 'o', 'n', Char.ofNat 39, 't']

/-- The verb alternatives of the English no-action regex. -/
def dontVerbs : List String := ["operate", "execute", "schedule", "book", "create"]

/-- Match of the English no-action regex anchored at the head of `s`:
the word, at least one whitespace character, then one of the verbs. -/
def dontPatternAt (s : List Char) : Bool :=
  isPrefixOfCI dontWord s &&
    (match s.drop 5 with
     | [] => false
     | c :: cs =>
        jsWhitespace c &&
          dontVerbs.any (fun v => isPrefixOfCI v.toList (cs.dropWhile jsWhitespace)))

/-- Unanchored test of the English no-action regex. -/
def testDont (q : String) : Bool := (tails' q.toList).any dontPatternAt

/-- One entry of a gate pattern list: a literal substring, a
case-insensitive literal, or the English no-action regex. -/
inductive Pat
  | lit (s : String)
  | litCI (s : String)
  | dontRegex
deriving DecidableEq, Repr

/-- Test `p.test(question)` for one pattern. -/
def testPat (q : String) : Pat → Bool
  | .lit s => containsSub q s
  | .litCI s => containsSubCI q s
  | .dontRegex => testDont q

/-- Source `noActionPatterns` (in source order). -/
def noActionPatterns : List Pat :=
  [.lit "先不要操作", .lit "先别操作", .lit "先不要安排", .lit "先不要创建",
   .lit "先不创建", .lit "不要执行", .lit "先和我互动", .dontRegex]

/-- Source `schedulingIntentPatterns` (in source order). -/
def schedulingIntentPatterns : List Pat :=
  [.lit "安排", .lit "预约", .litCI "schedule", .litCI "book",
   .lit "复习", .lit "准备面试", .lit "面试准备"]

/-- Source `ambiguousPatterns` (in source order). -/
def ambiguousPatterns : List Pat :=
  [.lit "左右", .lit "最近", .lit "未来这段时间", .lit "这段时间",
   .lit "有空", .lit "抽时间", .lit "大概", .lit "差不多",
   .litCI "around", .litCI "sometime", .litCI "soon"]

/-! ### The extracted time range -/

/-- An extracted calendar window.  The source stores the two instants as
ISO-8601 strings; they are modelled by their timestamp values (the source
field named `end` is a Lean keyword and is called `stop` here). -/
structure TimeRange where
  start : Int
  stop : Int
deriving DecidableEq, Repr

/-! ### The Clarification Gate (`shouldAskClarificationBeforeMutation`) -/

/-- Source local `hasMutationTool`: is any requested call a mutating one. -/
def hasMutationTool (executableToolCalls : List ToolCallLike) : Bool :=
  (executableToolCalls.map (fun call => call.function.name)).any
    (fun name => ["schedule_event", "edit_event", "delete_event"].contains name)

/-- Source local `hasSufficientMutationArgs`: every requested call either
is non-mutating or already carries truthy values for all the fields its
tool requires. -/
def hasSufficientMutationArgs (executableToolCalls : List ToolCallLike) : Bool :=
  executableToolCalls.all (fun toolCall =>
    let name := toolCall.function.name
    let args := parseArgs toolCall.function.arguments
    if name == "schedule_event" then
      truthy (getField args "start_time") && truthy (getField args "end_time") &&
        truthy (getField args "summary")
    else if name == "edit_event" then
      truthy (getField args "event_id") && truthy (getField args "start_time") &&
        truthy (getField args "end_time") && truthy (getField args "summary")
    else if name == "delete_event" then
      truthy (getField args "event_id")
    else true)

/-- Source `shouldAskClarificationBeforeMutation`: the pure heuristic gate
deciding whether the requested mutating calls must be deferred pending a
clarification round. -/
def shouldAskClarificationBeforeMutation (question : String)
    (extractedRange : Option TimeRange)
    (executableToolCalls : List ToolCallLike) : Bool :=
  if !hasMutationTool executableToolCalls then false
  else if noActionPatterns.any (testPat question) then true
  else if hasSufficientMutationArgs executableToolCalls then false
  else
    let hasSchedulingIntent := schedulingIntentPatterns.any (testPat question)
    let hasAmbiguousTime := ambiguousPatterns.any (testPat question)
    hasSchedulingIntent && (hasAmbiguousTime || extractedRange.isNone)

/-- Source `buildClarificationPrompt`: the fixed five-question prompt. -/
def buildClarificationPrompt : String :=
  String.intercalate "\n"
    ["在我创建或修改日程之前，我先确认几个关键信息：",
     "1. 计划从哪天开始，到哪天结束？",
     "2. 每周准备几次？每次多长时间？",
     "3. 你偏好的时间段是哪些（如工作日晚上、周末上午）？",
     "4. 是否要避开已有日程并自动找空档？",
     "5. 是否需要提前提醒（提前多久）？",
     "你回复这些信息后，我再执行具体安排。"]

/-! ### Time Range Extractor (`extractTimeRangeFromQuestion`)

The single completion request is modelled by its outcome: the awaited call
either rejected (timeout, transport failure) or resolved with an optional
content string.  `JSON.parse` and `new Date(x).getTime()` are oracle
parameters (`none` models a parse exception resp. an invalid date). -/

/-- Outcome of one awaited model-completion request. -/
inductive ModelCallOutcome
  | failure (err : String)
  | success (content : Option String)
deriving DecidableEq, Repr

/-- The validation applied to the response content of the model.  Both source
variants run this identical code after the request; it is shared here.
The returned range holds the two parsed instants (the source re-serializes
them with `toISOString`, which is injective and order-preserving). -/
def parseTimeRangeContent (content : Option String)
    (jsonParse : String → Option Args)
    (dateValue : JSValue → Option Int) : Option TimeRange :=
  match content with
  | none => none
  | some c =>
    if c == "" then none
    else
      match jsonParse c with
      | none => none
      | some parsed =>
        let pstart := getField parsed "start"
        let pend := getField parsed "end"
        if !(truthy pstart) || !(truthy pend) then none
        else
          match pstart, pend with
          | some vs, some ve =>
            match dateValue vs, dateValue ve with
            | some startMs, some endMs =>
              if endMs ≤ startMs then none else some ⟨startMs, endMs⟩
            | _, _ => none
          | _, _ => none

/-- Source `extractTimeRangeFromQuestion` (current variant): the request
is wrapped in try/catch, so a rejected call yields `none`. -/
def extractTimeRangeFromQuestion (outcome : ModelCallOutcome)
    (jsonParse : String → Option Args)
    (dateValue : JSValue → Option Int) : Option TimeRange :=
  match outcome with
  | .failure _ => none
  | .success content => parseTimeRangeContent content jsonParse dateValue

/-- Source `extractTimeRangeFromQuestion` (legacy variant): the awaited
request is not wrapped, so a rejection propagates to the caller; only the
post-response validation returns `none`. -/
def extractTimeRangeFromQuestionLegacy (outcome : ModelCallOutcome)
    (jsonParse : String → Option Args)
    (dateValue : JSValue → Option Int) : Except String (Option TimeRange) :=
  match outcome with
  | .failure err => .error err
  | .success content => .ok (parseTimeRangeContent content jsonParse dateValue)

/-! ### Provider errors and `formatToolError` -/

/-- One entry of a Google API error reason list. -/
structure ApiErrorItem where
  reason : Option String
  message : Option String
deriving DecidableEq, Repr

/-- The `response.data.error` body of a provider rejection. -/
structure ApiErrorBody where
  code : Option Int
  message : Option String
  status : Option String
  errors : Option (List ApiErrorItem)
deriving DecidableEq, Repr

/-- The `response` part of a provider rejection. -/
structure ErrResponse where
  status : Option Nat
  statusText : Option String
  dataError : Option ApiErrorBody
deriving DecidableEq, Repr

/-- A thrown provider error object. -/
structure ProviderError where
  message : Option String
  code : Option String
  status : Option Nat
  response : Option ErrResponse
deriving DecidableEq, Repr

/-- A JavaScript thrown value: either not an object (the source falls back
to a fixed diagnostic) or an error object. -/
inductive JSError
  | nonObject
  | obj (e : ProviderError)
deriving DecidableEq, Repr

/-- JavaScript `a || b` on two optional strings (falsy falls through). -/
def orStrOpt (a b : Option String) : Option String :=
  match a with
  | some s => if s == "" then b else some s
  | none => b

/-- Source `formatToolError`: renders a thrown provider error as the
human-readable diagnostic (HTTP status, provider status/code, message and
reason list), parts joined by a bar separator. -/
def formatToolError : JSError → String
  | .nonObject => "Tool execution failed"
  | .obj e =>
    let status : Option Nat :=
      match e.response with
      | some r => match r.status with | some s => some s | none => e.status
      | none => e.status
    let statusText := e.response.bind (fun r => r.statusText)
    let apiError := e.response.bind (fun r => r.dataError)
    let reasons :=
      match apiError.bind (fun a => a.errors) with
      | none => ""
      | some items =>
        String.intercalate ", "
          (((items.map (fun it => orStrOpt it.reason it.message)).filterMap id).filter
            (fun s => !s.isEmpty))
    let p1 :=
      match status with
      | some n =>
        if n == 0 then ""
        else "HTTP " ++ toString n ++
          (match statusText with
           | some t => if t == "" then "" else " " ++ t
           | none => "")
      | none => ""
    let p2 :=
      match apiError.bind (fun a => a.status) with
      | some s => if s == "" then "" else "status=" ++ s
      | none => ""
    let p3 :=
      match apiError.bind (fun a => a.code) with
      | some c => if c == 0 then "" else "code=" ++ toString c
      | none => ""
    let p4 :=
      match e.code with
      | some c => if c == "" then "" else "err=" ++ c
      | none => ""
    let p5 := orStrD (orStrOpt (apiError.bind (fun a => a.message)) e.message)
      "Tool execution failed"
    let p6 := if reasons == "" then "" else "reason=" ++ reasons
    String.intercalate " | " ([p1, p2, p3, p4, p5, p6].filter (fun s => !s.isEmpty))

/-! ### Tool Dispatcher (`executeCalendarTool`) -/

/-- The serialized `output` string of a tool result.  The source emits
`JSON.stringify` of one of three shapes; provider payloads are opaque
strings here (the `get_calendar` per-event normalization is not modelled:
no claim concerns it). -/
inductive ToolOutput
  | okEvents (events : List String)
  | okData (d : String)
  | errOut (message : String)
deriving DecidableEq, Repr

/-- Source tool execution result: output payload plus the side-effect
accounting flag. -/
structure ToolResult where
  output : ToolOutput
  didMutate : Bool
deriving DecidableEq, Repr

/-- JavaScript `String(x)` on a defined value. -/
def jsToString : JSValue → String
  | .vstr s => s
  | .vnum n => toString n
  | .vbool b => if b then "true" else "false"
  | .vnull => "null"
  | .varr xs => String.intercalate "," xs

/-- JavaScript `String(x)` including `undefined`. -/
def jsStringOpt : Option JSValue → String
  | none => "undefined"
  | some v => jsToString v

/-- JavaScript `v || d` coerced to a string. -/
def jsOr (v : Option JSValue) (d : String) : String :=
  if truthy v then jsStringOpt v else d

/-- Source expression picking the date part: the text before the first
character T when one occurs, else the whole string. -/
def splitDateOnly (s : String) : String :=
  if s.toList.contains 'T' then String.mk (s.toList.takeWhile (fun c => c != 'T'))
  else s

/-- One of the two `start`/`end` fields sent to the provider. -/
structure EventTimeField where
  dateTime : Option String
  date : Option String
  timeZone : String
deriving DecidableEq, Repr

/-- The request body sent to `events.insert` / `events.update` (the source
field named `end` is called `stop` here; attendees are reduced to their
email strings). -/
structure EventBody where
  summary : Option JSValue
  description : Option JSValue
  start : EventTimeField
  stop : EventTimeField
  attendees : Option (List String)
  recurrence : Option JSValue
deriving DecidableEq, Repr

/-- Behaviour of the Google Calendar client for one dispatched call: each
provider method either resolves with its payload or rejects with a thrown
error.  `newDateIso` models `new Date(x).toISOString()`, which throws a
`RangeError` on an invalid date. -/
structure CalendarApi where
  calendarsGetPrimary : Except JSError (Option String)
  eventsList : String → String → String → Except JSError (List String)
  eventsInsert : EventBody → Except JSError String
  eventsUpdate : Option JSValue → EventBody → Except JSError String
  eventsDelete : Option JSValue → Except JSError String
  newDateIso : Option JSValue → Except JSError String

/-- Source local `resolvePrimaryCalendarTimeZone`: reads the primary
zone of the primary calendar, falling back to UTC on a missing zone or any rejection
(its own try/catch keeps it from throwing). -/
def resolvePrimaryCalendarTimeZone (api : CalendarApi) : String :=
  match api.calendarsGetPrimary with
  | .ok tz => orStrD tz "UTC"
  | .error _ => "UTC"

/-- Source attendee-list computation (spread plus the caller, filtered
by truthiness) guarded by
`attendees?.length` (only string arrays are modelled). -/
def attendeesWithSelf (args : Args) (userEmail : Option String) : List String :=
  match getField args "attendees" with
  | some (.varr xs) =>
    if !xs.isEmpty then
      (xs ++ (match userEmail with | some e => [e] | none => [])).filter
        (fun s => !s.isEmpty)
    else []
  | _ => []

/-- The body of the `try` block of source `executeCalendarTool`: dispatch
on the tool name, perform the provider calls, and produce the result; a
provider rejection propagates as `Except.error` to the catch clause. -/
def executeCalendarToolBody (toolCall : ToolCallLike) (api : CalendarApi)
    (userEmail : Option String) : Except JSError ToolResult :=
  let name := toolCall.function.name
  let args := parseArgs toolCall.function.arguments
  if name == "get_calendar" then do
    let start ← api.newDateIso (getField args "start_time")
    let stop ← api.newDateIso (getField args "end_time")
    let items ← api.eventsList (jsOr (getField args "calendar_id") "primary") start stop
    pure ⟨.okEvents items, false⟩
  else if name == "schedule_event" then
    let eventTimeZone :=
      if truthy (getField args "time_zone") then jsStringOpt (getField args "time_zone")
      else resolvePrimaryCalendarTimeZone api
    let start := jsStringOpt (getField args "start_time")
    let stop := jsStringOpt (getField args "end_time")
    let startDateOnly := splitDateOnly start
    let stopDateOnly := splitDateOnly stop
    let allDay := truthy (getField args "all_day")
    do
      let d ← api.eventsInsert
        { summary := getField args "summary"
          description := getField args "description"
          start :=
            { dateTime := if allDay then none else some start
              date := if allDay then some startDateOnly else none
              timeZone := eventTimeZone }
          stop :=
            { dateTime := if allDay then none else some stop
              date := if allDay then some stopDateOnly else none
              timeZone := eventTimeZone }
          attendees := some (attendeesWithSelf args userEmail)
          recurrence := getField args "recurrence" }
      pure ⟨.okData d, true⟩
  else if name == "edit_event" then
    let eventTimeZone := resolvePrimaryCalendarTimeZone api
    let start : Option String :=
      if truthy (getField args "start_time") then
        some (jsStringOpt (getField args "start_time"))
      else none
    let stop : Option String :=
      if truthy (getField args "end_time") then
        some (jsStringOpt (getField args "end_time"))
      else none
    let startDateOnly := start.map splitDateOnly
    let stopDateOnly := stop.map splitDateOnly
    let allDay := truthy (getField args "all_day")
    do
      let d ← api.eventsUpdate (getField args "event_id")
        { summary := getField args "summary"
          description := getField args "description"
          start :=
            { dateTime := if allDay then none else start
              date := if allDay then startDateOnly else none
              timeZone := eventTimeZone }
          stop :=
            { dateTime := if allDay then none else stop
              date := if allDay then stopDateOnly else none
              timeZone := eventTimeZone }
          attendees :=
            match getField args "attendees" with
            | some (.varr xs) => some xs
            | _ => none
          recurrence := getField args "recurrence" }
      pure ⟨.okData d, true⟩
  else if name == "delete_event" then do
    let d ← api.eventsDelete (getField args "event_id")
    pure ⟨.okData d, true⟩
  else
    pure ⟨.errOut ("Unsupported tool: " ++ name), false⟩

/-- Source `executeCalendarTool`: the try body with its catch clause,
which converts any thrown provider error into a non-mutating error
result.  The function is total on its result type. -/
def executeCalendarTool (toolCall : ToolCallLike) (api : CalendarApi)
    (userEmail : Option String) : ToolResult :=
  match executeCalendarToolBody toolCall api userEmail with
  | .ok r => r
  | .error e => ⟨.errOut (formatToolError e), false⟩

/-! ### Conversation history, streaming effects and the orchestration loop

The detached async body of `submitMessage` is embedded as a pure function from
its request inputs (with every awaited network call replaced by an outcome
oracle) to the updated thread store together with the ordered trace of its
observable effects (stream writes, model calls, tool executions, the store
write, stream completions). -/

/-- Source `MAX_TOOL_ROUNDS`. -/
def MAX_TOOL_ROUNDS : Nat := 8

/-- A message pushed into the history of a thread by the loop.  Tool-result
content is the serialized tool output. -/
inductive Msg
  | user (content : String)
  | assistant (content : String)
  | assistantToolCalls (content : String) (tool_calls : List ToolCallLike)
  | assistantFnCall (content : String) (function_call : FnCall)
  | toolMsg (tool_call_id : String) (content : ToolOutput)
  | functionMsg (name : String) (content : ToolOutput)
deriving DecidableEq, Repr

/-- One observable effect of the request body, in program order. -/
inductive Effect
  | statusUpdate (s : String)
  | textAppend (s : String)
  | rangeEmit (r : Option TimeRange)
  | jobsEmit (n : Nat)
  | modelCall (round : Nat)
  | toolExec (name : String) (didMutate : Bool)
  | storeWrite (threadId : String) (hist : List Msg)
  | streamDone (s : String)
deriving DecidableEq, Repr

/-- Outcome of one awaited assistant-completion request inside the loop:
the call rejected, resolved without a message, or resolved with a message
carrying optional text, modern tool calls and/or a legacy function call. -/
inductive CompletionOutcome
  | throwErr (message : String)
  | empty
  | msg (content : Option String) (tool_calls : List ToolCallLike)
      (function_call : Option FnCall)
deriving DecidableEq, Repr

/-- How the round loop ended: normally (break or budget exhausted) or by
an exception escaping to the outer catch. -/
inductive LoopExit
  | finished
  | threw (message : String)
deriving DecidableEq, Repr

/-- Mutable state of the loop: the history being built, the mutation
counter `refetchJobs`, the accumulated effect trace, and the counter
backing generated tool-result ids. -/
structure RoundState where
  history : List Msg
  jobs : Nat
  trace : List Effect
  genCounter : Nat

/-- The per-round `for (const toolCall of executableToolCalls)` body:
execute each call in order, bump and re-emit the mutation counter when the
result mutated, and push the matching result message (`tool` role with an
id when the modern shape was used, `function` role otherwise). -/
def execCalls (execTool : ToolCallLike → ToolResult) (genId : Nat → String)
    (modern : Bool) : List ToolCallLike → RoundState → RoundState
  | [], st => st
  | call :: rest, st =>
    let result := execTool call
    let traceA := st.trace ++ [Effect.toolExec call.function.name result.didMutate]
    let jobs1 := if result.didMutate then st.jobs + 1 else st.jobs
    let traceB := if result.didMutate then traceA ++ [Effect.jobsEmit (st.jobs + 1)] else traceA
    let resMsg :=
      if modern then
        Msg.toolMsg (match call.id with | some i => i | none => genId st.genCounter)
          result.output
      else
        Msg.functionMsg call.function.name result.output
    let ctr := if modern && call.id.isNone then st.genCounter + 1 else st.genCounter
    execCalls execTool genId modern rest ⟨st.history ++ [resMsg], jobs1, traceB, ctr⟩

/-- The executable call list a round derives from the model message: the
modern tool calls when present, else the legacy function call wrapped as a
single id-less call. -/
def toExecutable (toolCalls : List ToolCallLike) (functionCall : Option FnCall) :
    List ToolCallLike :=
  if !toolCalls.isEmpty then toolCalls
  else
    match functionCall with
    | some f => [{ function := f }]
    | none => []

/-- The `for (let round = 0; round < MAX_TOOL_ROUNDS; round++)` loop.
`fuel` is the number of remaining rounds, `round` the zero-based index of
the next one. -/
def runRounds (question : String) (extractedRange : Option TimeRange)
    (execTool : ToolCallLike → ToolResult)
    (completions : Nat → CompletionOutcome) (genId : Nat → String) :
    Nat → Nat → RoundState → RoundState × LoopExit
  | 0, _, st => (st, .finished)
  | fuel + 1, round, st =>
    let st0 : RoundState :=
      { st with trace := st.trace ++
          [Effect.statusUpdate ("conversation.model_round_" ++ toString (round + 1)),
           Effect.modelCall round] }
    match completions round with
    | .throwErr e => (st0, .threw e)
    | .empty =>
      ({ st0 with trace := st0.trace ++ [Effect.textAppend "No response from model."] },
       .finished)
    | .msg content toolCalls functionCall =>
      if toolCalls.isEmpty && functionCall.isNone then
        let c := orStrD content "No response from model."
        ({ st0 with history := st0.history ++ [Msg.assistant c],
                    trace := st0.trace ++ [Effect.textAppend c] }, .finished)
      else
        let executableToolCalls := toExecutable toolCalls functionCall
        if shouldAskClarificationBeforeMutation question extractedRange
            executableToolCalls then
          ({ st0 with
              history := st0.history ++ [Msg.assistant buildClarificationPrompt],
              trace := st0.trace ++ [Effect.textAppend buildClarificationPrompt] },
           .finished)
        else
          let st1 :=
            if !toolCalls.isEmpty then
              { st0 with history := st0.history ++
                  [Msg.assistantToolCalls (orStrD content "") toolCalls] }
            else
              match functionCall with
              | some f =>
                { st0 with history := st0.history ++
                    [Msg.assistantFnCall (orStrD content "") f] }
              | none => st0
          let st2 := execCalls execTool genId (!toolCalls.isEmpty) executableToolCalls st1
          runRounds question extractedRange execTool completions genId fuel (round + 1) st2

/-- The process-wide `conversationStore`, as a map from thread id to the
stored history. -/
def Store := String → Option (List Msg)

/-- Source `conversationStore.set`. -/
def storeSet (s : Store) (id : String) (h : List Msg) : Store :=
  fun k => if k == id then some h else s k

/-- JavaScript `slice(-n)`: the most recent `n` entries. -/
def sliceLast (n : Nat) (l : List α) : List α := l.drop (l.length - n)

/-- All oracle inputs of one request: the user question and thread id,
the behaviour of the advisory extraction call, of the configuration load
(`loadAssistantConfig` may reject), of each assistant completion round,
of tool execution (instantiated by `executeCalendarTool` with a calendar
client), and the generator backing synthesized tool-result ids. -/
structure RequestInput where
  question : String
  threadId : String
  extractOutcome : ModelCallOutcome
  jsonParse : String → Option Args
  dateValue : JSValue → Option Int
  configOutcome : Except String Unit
  completions : Nat → CompletionOutcome
  execTool : ToolCallLike → ToolResult
  genId : Nat → String

/-- The `finally` clause: every stream is completed, in source order. -/
def finallyTrace : List Effect :=
  [.streamDone "status", .streamDone "textUI", .streamDone "gui", .streamDone "text",
   .streamDone "threadId", .streamDone "refetchJobs", .streamDone "refetchRange"]

/-- The outer `catch` clause: error status plus a generic error line. -/
def catchTrace (e : String) : List Effect :=
  [.statusUpdate "conversation.error",
   .textAppend ("Error: " ++ orStrD (some e) "Failed to process the request.")]

/-- The detached async body of source `submitMessage` (current variant):
extraction, configuration load, the round loop, the store update on normal
loop exit, the catch clause on a thrown error, and the finally clause. -/
def runRequestBody (inp : RequestInput) (store : Store) : Store × List Effect :=
  let trace0 : List Effect := [.statusUpdate "conversation.extract_range"]
  let extractedRange :=
    extractTimeRangeFromQuestion inp.extractOutcome inp.jsonParse inp.dateValue
  let trace1 := trace0 ++ [Effect.rangeEmit extractedRange]
  match inp.configOutcome with
  | .error e => (store, trace1 ++ catchTrace e ++ finallyTrace)
  | .ok _ =>
    let history0 := (store inp.threadId).getD [] ++ [Msg.user inp.question]
    let init : RoundState := ⟨history0, 0, trace1, 0⟩
    let res := runRounds inp.question extractedRange inp.execTool inp.completions
      inp.genId MAX_TOOL_ROUNDS 0 init
    match res.2 with
    | .finished =>
      let finalHist := sliceLast 30 res.1.history
      (storeSet store inp.threadId finalHist,
       res.1.trace ++ [Effect.storeWrite inp.threadId finalHist] ++ finallyTrace)
    | .threw e => (store, res.1.trace ++ catchTrace e ++ finallyTrace)

/-! ### Observables of a trace and the answered-requests invariant -/

/-- The values emitted on the mutation-count stream, in order (the stream
is created holding `0` before any of these updates). -/
def jobsEmits (tr : List Effect) : List Nat :=
  tr.filterMap (fun e => match e with | .jobsEmit n => some n | _ => none)

/-- How many executed tool calls reported `didMutate = true`. -/
def mutExecCount (tr : List Effect) : Nat :=
  (tr.filter (fun e => match e with | .toolExec _ b => b | _ => false)).length

/-- How many assistant-completion requests were issued. -/
def modelCallCount (tr : List Effect) : Nat :=
  (tr.filter (fun e => match e with | .modelCall _ => true | _ => false)).length

/-- The store writes of a trace, in order. -/
def storeWrites (tr : List Effect) : List (String × List Msg) :=
  tr.filterMap (fun e => match e with | .storeWrite i h => some (i, h) | _ => none)

/-- Auxiliary walk for the answered-requests invariant: `pending` is the
list of tool-call requests of the most recent assistant message still
awaiting their result messages. -/
def answeredAux : List Msg → List ToolCallLike → Bool
  | [], pending => pending.isEmpty
  | m :: rest, [] =>
    match m with
    | .assistantToolCalls _ cs => answeredAux rest cs
    | .assistantFnCall _ f => answeredAux rest [{ function := f }]
    | .toolMsg _ _ => false
    | .functionMsg _ _ => false
    | _ => answeredAux rest []
  | m :: rest, _ :: ps =>
    match m with
    | .toolMsg _ _ => answeredAux rest ps
    | .functionMsg _ _ => answeredAux rest ps
    | _ => false

/-- History invariant of §3 of the spec: every assistant message carrying
tool-call requests is immediately followed by exactly one result message
per request, and no stray result message appears. -/
def toolRequestsAnswered (l : List Msg) : Bool := answeredAux l []

/-! ### Concrete inputs used by witnesses and counterexamples -/

/-- A question matching the no-action phrase set. -/
def noActionQ : String := "先不要操作，帮我安排复习"

/-- A question with scheduling intent and ambiguous time, matching no
no-action phrase. -/
def ambiguousQ : String := "安排一下复习，最近找时间"

/-- A schedule request whose three required fields are all truthy. -/
def completeScheduleCall : ToolCallLike :=
  { id := some "call_1",
    function :=
      { name := "schedule_event",
        arguments := .wellFormed
          [("start_time", .vstr "2026-10-13T09:00:00Z"),
           ("end_time", .vstr "2026-10-13T10:00:00Z"),
           ("summary", .vstr "复习")] } }

/-- A read-only request. -/
def getCalendarCall : ToolCallLike :=
  { id := some "call_2",
    function := { name := "get_calendar", arguments := .absent } }

/-- A schedule request whose `summary` key is present but empty. -/
def emptySummaryScheduleCall : ToolCallLike :=
  { id := some "call_3",
    function :=
      { name := "schedule_event",
        arguments := .wellFormed
          [("start_time", .vstr "2026-10-13T09:00:00Z"),
           ("end_time", .vstr "2026-10-13T10:00:00Z"),
           ("summary", .vstr "")] } }

/-- An edit request whose `event_id` key is present but empty. -/
def emptyIdEditCall : ToolCallLike :=
  { id := some "call_6",
    function :=
      { name := "edit_event",
        arguments := .wellFormed
          [("event_id", .vstr ""),
           ("start_time", .vstr "2026-10-13T09:00:00Z"),
           ("end_time", .vstr "2026-10-13T10:00:00Z"),
           ("summary", .vstr "复习")] } }

/-- A schedule request with no arguments at all. -/
def incompleteScheduleCall : ToolCallLike :=
  { id := some "call_4", function := { name := "schedule_event", arguments := .absent } }

/-! ### Claims about the Clarification Gate -/

/-- C1: for every question matching an explicit no-action phrase, the gate
defers whenever the requested tool-call list contains a mutating call,
regardless of argument completeness of the mutating calls; and it returns
false whenever the list contains no mutating call. -/
theorem C1_no_action_overrides (q : String) (r : Option TimeRange)
    (calls : List ToolCallLike)
    (h : noActionPatterns.any (testPat q) = true) :
    (hasMutationTool calls = true →
      shouldAskClarificationBeforeMutation q r calls = true) ∧
    (hasMutationTool calls = false →
      shouldAskClarificationBeforeMutation q r calls = false) := by
  unfold shouldAskClarificationBeforeMutation
  constructor
  · intro hm; simp [hm, h]
  · intro hm; simp [hm]

/-- Witness for C1: the no-action question defers a fully-specified
schedule call and does not defer a read-only call. -/
theorem C1_no_action_overrides_witness :
    shouldAskClarificationBeforeMutation noActionQ none [completeScheduleCall] = true ∧
    shouldAskClarificationBeforeMutation noActionQ none [getCalendarCall] = false :=
  ⟨(C1_no_action_overrides noActionQ none [completeScheduleCall] (by decide)).1 (by decide),
   (C1_no_action_overrides noActionQ none [getCalendarCall] (by decide)).2 (by decide)⟩

/-- Counterexample to C2 as stated: a question matching a no-action phrase
is deferred even though the single mutating call has complete arguments,
so "complete arguments imply no deferral" does not hold for every
question. -/
theorem C2_complete_args_cex :
    hasSufficientMutationArgs [completeScheduleCall] = true ∧
    shouldAskClarificationBeforeMutation noActionQ none [completeScheduleCall] = true := by
  exact ⟨by decide, by decide⟩

/-- C2 (amended): for every question that does not match a no-action
phrase, if every mutating call has complete arguments the gate returns
false, regardless of ambiguous phrasing. -/
theorem C2_complete_args_amended (q : String) (r : Option TimeRange)
    (calls : List ToolCallLike)
    (hno : noActionPatterns.any (testPat q) = false)
    (hsuff : hasSufficientMutationArgs calls = true) :
    shouldAskClarificationBeforeMutation q r calls = false := by
  unfold shouldAskClarificationBeforeMutation
  cases hm : hasMutationTool calls <;> simp [hno, hsuff]

/-- Witness for C2 (amended): an ambiguously phrased question with a
fully-specified schedule call executes without deferral. -/
theorem C2_complete_args_amended_witness :
    shouldAskClarificationBeforeMutation ambiguousQ none [completeScheduleCall] = false :=
  C2_complete_args_amended ambiguousQ none [completeScheduleCall] (by decide) (by decide)

/-- C10: argument sufficiency uses truthiness, not key presence.  A
schedule call whose `summary` is the empty string (and an edit call whose
`event_id` is the empty string) is insufficient although the key exists,
so with scheduling intent and an ambiguous time or no extracted range the
gate defers. -/
theorem C10_truthiness_not_presence (q : String) (r : Option TimeRange)
    (hno : noActionPatterns.any (testPat q) = false)
    (hint : schedulingIntentPatterns.any (testPat q) = true)
    (hamb : ambiguousPatterns.any (testPat q) = true ∨ r = none) :
    (getField (parseArgs emptySummaryScheduleCall.function.arguments) "summary").isSome
      = true ∧
    hasSufficientMutationArgs [emptySummaryScheduleCall] = false ∧
    shouldAskClarificationBeforeMutation q r [emptySummaryScheduleCall] = true ∧
    (getField (parseArgs emptyIdEditCall.function.arguments) "event_id").isSome = true ∧
    hasSufficientMutationArgs [emptyIdEditCall] = false ∧
    shouldAskClarificationBeforeMutation q r [emptyIdEditCall] = true := by
  have hm1 : hasMutationTool [emptySummaryScheduleCall] = true := by decide
  have hm2 : hasMutationTool [emptyIdEditCall] = true := by decide
  have hs1 : hasSufficientMutationArgs [emptySummaryScheduleCall] = false := by decide
  have hs2 : hasSufficientMutationArgs [emptyIdEditCall] = false := by decide
  refine ⟨by decide, hs1, ?_, by decide, hs2, ?_⟩ <;>
    · unfold shouldAskClarificationBeforeMutation
      simp only [hm1, hm2, hno, hs1, hs2, Bool.not_true, Bool.false_eq_true, if_false,
        Bool.false_eq_true, if_false]
      rcases hamb with hamb | hamb <;> simp [hint, hamb]

/-- Witness for C10: the ambiguous scheduling question with the
present-but-empty `summary` is deferred. -/
theorem C10_truthiness_not_presence_witness :
    shouldAskClarificationBeforeMutation ambiguousQ none [emptySummaryScheduleCall] = true :=
  (C10_truthiness_not_presence ambiguousQ none (by decide) (by decide)
    (Or.inl (by decide))).2.2.1

/-! ### Claims about the Time Range Extractor -/

/-- Trivial parse oracles. -/
def jsonParse0 : String → Option Args := fun _ => none

/-- Trivial date oracle. -/
def dateValue0 : JSValue → Option Int := fun _ => none

/-- Counterexample to C4 as stated: the legacy variant of
`extractTimeRangeFromQuestion` propagates a transport failure of the
model call instead of returning absent. -/
theorem C4_extract_never_raises_cex :
    extractTimeRangeFromQuestionLegacy (.failure "ETIMEDOUT") jsonParse0 dateValue0 =
      .error "ETIMEDOUT" ∧
    extractTimeRangeFromQuestionLegacy (.failure "ETIMEDOUT") jsonParse0 dateValue0 ≠
      .ok none := by
  exact ⟨rfl, by intro h; cases h⟩

/-- A helper for C4: whenever the shared response validation returns a
range, that range satisfies stop above start. -/
theorem parseTimeRangeContent_some_lt (content : Option String)
    (jsonParse : String → Option Args) (dateValue : JSValue → Option Int)
    (r : TimeRange)
    (h : parseTimeRangeContent content jsonParse dateValue = some r) :
    r.start < r.stop := by
  cases content with
  | none => exact absurd h (by simp [parseTimeRangeContent])
  | some c =>
    simp only [parseTimeRangeContent] at h
    split at h
    · cases h
    · split at h
      · cases h
      · split at h
        · cases h
        · split at h
          · split at h
            · split at h
              · cases h
              · cases h; dsimp only; omega
            · cases h
          · cases h

/-- C4 (amended): the current `extractTimeRangeFromQuestion` never raises
and returns absent for every listed failure outcome, and any returned
range satisfies stop above start; the legacy variant runs the identical
post-response validation but propagates a rejected model call (timeout or
transport failure) instead of returning absent. -/
theorem C4_extract_never_raises_amended (jsonParse : String → Option Args)
    (dateValue : JSValue → Option Int) :
    (∀ e, extractTimeRangeFromQuestion (.failure e) jsonParse dateValue = none) ∧
    (extractTimeRangeFromQuestion (.success none) jsonParse dateValue = none) ∧
    (∀ c, jsonParse c = none →
      extractTimeRangeFromQuestion (.success (some c)) jsonParse dateValue = none) ∧
    (∀ outcome r, extractTimeRangeFromQuestion outcome jsonParse dateValue = some r →
      r.start < r.stop) ∧
    (∀ e, extractTimeRangeFromQuestionLegacy (.failure e) jsonParse dateValue = .error e) ∧
    (∀ c, extractTimeRangeFromQuestionLegacy (.success c) jsonParse dateValue =
      .ok (extractTimeRangeFromQuestion (.success c) jsonParse dateValue)) := by
  refine ⟨fun e => rfl, rfl, ?_, ?_, fun e => rfl, fun c => rfl⟩
  · intro c hc
    simp [extractTimeRangeFromQuestion, parseTimeRangeContent, hc]
  · intro outcome r h
    cases outcome with
    | failure e => cases h
    | success content => exact parseTimeRangeContent_some_lt content jsonParse dateValue r h

/-- Parse oracle producing a valid range for the C4 witness. -/
def jsonParseW : String → Option Args :=
  fun _ => some [("start", .vstr "s"), ("end", .vstr "e")]

/-- Date oracle for the C4 witness. -/
def dateValueW : JSValue → Option Int :=
  fun v =>
    match v with
    | .vstr "s" => some 0
    | .vstr "e" => some 100
    | _ => none

/-- Witness for C4 (amended): a failed call yields absent, and a
successfully extracted range has stop above start. -/
theorem C4_extract_never_raises_amended_witness :
    extractTimeRangeFromQuestion (.failure "boom") jsonParseW dateValueW = none ∧
    (⟨0, 100⟩ : TimeRange).start < (⟨0, 100⟩ : TimeRange).stop :=
  ⟨(C4_extract_never_raises_amended jsonParseW dateValueW).1 "boom",
   (C4_extract_never_raises_amended jsonParseW dateValueW).2.2.2.1
     (.success (some "x")) ⟨0, 100⟩ (by decide)⟩

/-! ### Claims about the Tool Dispatcher -/

/-- Helper: a thrown provider error is caught and converted into the
formatted non-mutating error result. -/
theorem exec_error_result (toolCall : ToolCallLike) (api : CalendarApi)
    (userEmail : Option String) (e : JSError)
    (h : executeCalendarToolBody toolCall api userEmail = .error e) :
    executeCalendarTool toolCall api userEmail =
      ⟨.errOut (formatToolError e), false⟩ := by
  unfold executeCalendarTool
  rw [h]

/-- Helper: a name outside the four known tools yields the structured
unsupported-tool error result. -/
theorem exec_unknown_result (toolCall : ToolCallLike) (api : CalendarApi)
    (userEmail : Option String)
    (h : toolCall.function.name ∉
      ["get_calendar", "schedule_event", "edit_event", "delete_event"]) :
    executeCalendarTool toolCall api userEmail =
      ⟨.errOut ("Unsupported tool: " ++ toolCall.function.name), false⟩ := by
  simp only [List.mem_cons, List.not_mem_nil, or_false, not_or] at h
  obtain ⟨h1, h2, h3, h4⟩ := h
  unfold executeCalendarTool executeCalendarToolBody
  rw [if_neg (by simpa using h1), if_neg (by simpa using h2), if_neg (by simpa using h3),
    if_neg (by simpa using h4)]
  rfl

/-- Helper: whenever the result of the dispatcher carries an error output, the
mutation flag is down. -/
theorem exec_output_err_no_mutate (toolCall : ToolCallLike) (api : CalendarApi)
    (userEmail : Option String) (m : String)
    (hm : (executeCalendarTool toolCall api userEmail).output = .errOut m) :
    (executeCalendarTool toolCall api userEmail).didMutate = false := by
  unfold executeCalendarTool at hm ⊢
  cases hb : executeCalendarToolBody toolCall api userEmail with
  | error e => rfl
  | ok r =>
    rw [hb] at hm
    dsimp only at hm ⊢
    unfold executeCalendarToolBody at hb
    simp only [bind, Except.bind, pure, Except.pure] at hb
    repeat' split at hb
    all_goals cases hb
    all_goals first
      | rfl
      | exact absurd hm (by simp)

/-- Helper: a mutating result can only come from one of the three
mutating tools. -/
theorem executeCalendarTool_mutate_name (toolCall : ToolCallLike) (api : CalendarApi)
    (userEmail : Option String)
    (h : (executeCalendarTool toolCall api userEmail).didMutate = true) :
    toolCall.function.name ∈ ["schedule_event", "edit_event", "delete_event"] := by
  unfold executeCalendarTool at h
  cases hb : executeCalendarToolBody toolCall api userEmail with
  | error e => rw [hb] at h; exact absurd h (by simp)
  | ok r =>
    rw [hb] at h
    dsimp only at h
    unfold executeCalendarToolBody at hb
    simp only [bind, Except.bind, pure, Except.pure] at hb
    repeat' split at hb
    all_goals cases hb
    all_goals simp_all

/-- C5: `executeCalendarTool` is total on its result type: a thrown
provider error is caught locally and returned as a formatted non-mutating
error result, a name outside the four known tools yields the structured
unsupported-tool error result with no mutation, every error output comes
with the mutation flag down, and a raised mutation flag pins the name to a
mutating tool. -/
theorem C5_dispatcher_total (toolCall : ToolCallLike) (api : CalendarApi)
    (userEmail : Option String) :
    (∀ e, executeCalendarToolBody toolCall api userEmail = .error e →
      executeCalendarTool toolCall api userEmail =
        ⟨.errOut (formatToolError e), false⟩) ∧
    (toolCall.function.name ∉
        ["get_calendar", "schedule_event", "edit_event", "delete_event"] →
      executeCalendarTool toolCall api userEmail =
        ⟨.errOut ("Unsupported tool: " ++ toolCall.function.name), false⟩) ∧
    (∀ m, (executeCalendarTool toolCall api userEmail).output = .errOut m →
      (executeCalendarTool toolCall api userEmail).didMutate = false) ∧
    ((executeCalendarTool toolCall api userEmail).didMutate = true →
      toolCall.function.name ∈ ["schedule_event", "edit_event", "delete_event"]) :=
  ⟨fun e he => exec_error_result toolCall api userEmail e he,
   fun hn => exec_unknown_result toolCall api userEmail hn,
   fun m hm => exec_output_err_no_mutate toolCall api userEmail m hm,
   fun h => executeCalendarTool_mutate_name toolCall api userEmail h⟩

/-- A request for a tool name outside the fixed set. -/
def unknownToolCall : ToolCallLike :=
  { id := some "call_9", function := { name := "frobnicate", arguments := .absent } }

/-- A calendar client whose every method rejects. -/
def apiAllReject : CalendarApi :=
  { calendarsGetPrimary := .error .nonObject
    eventsList := fun _ _ _ => .error .nonObject
    eventsInsert := fun _ => .error .nonObject
    eventsUpdate := fun _ _ => .error .nonObject
    eventsDelete := fun _ => .error .nonObject
    newDateIso := fun _ => .error .nonObject }

/-- Witness for C5: the unknown tool name produces the structured
unsupported-tool error result with no mutation. -/
theorem C5_dispatcher_total_witness :
    executeCalendarTool unknownToolCall apiAllReject none =
      ⟨.errOut "Unsupported tool: frobnicate", false⟩ :=
  (C5_dispatcher_total unknownToolCall apiAllReject none).2.1 (by decide)

/-! ### Helper lemmas about the loop -/

/-- Truncation bound of the store write. -/
theorem sliceLast_length_le {α : Type} (n : Nat) (l : List α) :
    (sliceLast n l).length ≤ n := by
  simp only [sliceLast, List.length_drop]
  omega

/-- Distribution of the trace observables over append. -/
theorem jobsEmits_append (a b : List Effect) :
    jobsEmits (a ++ b) = jobsEmits a ++ jobsEmits b := by
  simp [jobsEmits]

/-- Distribution of the mutation-execution count over append. -/
theorem mutExecCount_append (a b : List Effect) :
    mutExecCount (a ++ b) = mutExecCount a + mutExecCount b := by
  simp [mutExecCount]

/-- Distribution of the model-call count over append. -/
theorem modelCallCount_append (a b : List Effect) :
    modelCallCount (a ++ b) = modelCallCount a + modelCallCount b := by
  simp [modelCallCount]

/-- Distribution of the store writes over append. -/
theorem storeWrites_append (a b : List Effect) :
    storeWrites (a ++ b) = storeWrites a ++ storeWrites b := by
  simp [storeWrites]

/-- Invariant linking the mutation-count stream to the counter: the
emitted values so far are exactly `1, …, jobs`, and `jobs` counts the
executed mutating calls. -/
def countersOK (st : RoundState) : Prop :=
  jobsEmits st.trace = List.range' 1 st.jobs ∧ mutExecCount st.trace = st.jobs

/-- Executing the calls of a round preserves the counter invariant and
adds no model call and no store write. -/
theorem execCalls_facts (execTool : ToolCallLike → ToolResult) (genId : Nat → String)
    (modern : Bool) :
    ∀ (calls : List ToolCallLike) (st : RoundState),
      (countersOK st → countersOK (execCalls execTool genId modern calls st)) ∧
      modelCallCount (execCalls execTool genId modern calls st).trace =
        modelCallCount st.trace ∧
      storeWrites (execCalls execTool genId modern calls st).trace =
        storeWrites st.trace := by
  intro calls
  induction calls with
  | nil => intro st; exact ⟨fun h => h, rfl, rfl⟩
  | cons c cs ih =>
    intro st
    cases hmut : (execTool c).didMutate with
    | false =>
      simp only [execCalls, hmut, Bool.false_eq_true, if_false, Bool.false_and]
      refine ⟨fun h => ?_, ?_, ?_⟩
      · refine (ih _).1 ⟨?_, ?_⟩
        · simpa [jobsEmits_append, jobsEmits] using h.1
        · simpa [mutExecCount_append, mutExecCount] using h.2
      · rw [(ih _).2.1]; simp [modelCallCount_append, modelCallCount]
      · rw [(ih _).2.2]; simp [storeWrites_append, storeWrites]
    | true =>
      simp only [execCalls, hmut, if_true]
      refine ⟨fun h => ?_, ?_, ?_⟩
      · refine (ih _).1 ⟨?_, ?_⟩
        · show jobsEmits (st.trace ++ [Effect.toolExec c.function.name true] ++
            [Effect.jobsEmit (st.jobs + 1)]) = List.range' 1 (st.jobs + 1)
          rw [jobsEmits_append, jobsEmits_append, h.1, List.range'_concat]
          simp [Nat.add_comm, jobsEmits]
        · show mutExecCount (st.trace ++ [Effect.toolExec c.function.name true] ++
            [Effect.jobsEmit (st.jobs + 1)]) = st.jobs + 1
          rw [mutExecCount_append, mutExecCount_append, h.2]
          simp [mutExecCount]
      · rw [(ih _).2.1]; simp [modelCallCount_append, modelCallCount]
      · rw [(ih _).2.2]; simp [storeWrites_append, storeWrites]

/-- Executing the calls of a round only records mutating-tool names on
mutating executions, provided the executor itself does. -/
theorem execCalls_mutNames (execTool : ToolCallLike → ToolResult) (genId : Nat → String)
    (modern : Bool)
    (hexec : ∀ c, (execTool c).didMutate = true →
      c.function.name ∈ ["schedule_event", "edit_event", "delete_event"]) :
    ∀ (calls : List ToolCallLike) (st : RoundState),
      (∀ name, Effect.toolExec name true ∈ st.trace →
        name ∈ ["schedule_event", "edit_event", "delete_event"]) →
      ∀ name,
        Effect.toolExec name true ∈ (execCalls execTool genId modern calls st).trace →
        name ∈ ["schedule_event", "edit_event", "delete_event"] := by
  intro calls
  induction calls with
  | nil => intro st h; exact h
  | cons c cs ih =>
    intro st h
    cases hmut : (execTool c).didMutate with
    | false =>
      simp only [execCalls, hmut, Bool.false_eq_true, if_false]
      refine ih _ ?_
      intro name hmem
      simp only [List.mem_append, List.mem_singleton] at hmem
      rcases hmem with hmem | hmem
      · exact h name hmem
      · cases hmem
    | true =>
      simp only [execCalls, hmut, if_true]
      refine ih _ ?_
      intro name hmem
      simp only [List.mem_append, List.mem_singleton] at hmem
      rcases hmem with (hmem | hmem) | hmem
      · exact h name hmem
      · cases hmem
        exact hexec c hmut
      · cases hmem

/-- The round loop preserves the counter invariant. -/
theorem runRounds_counters (question : String) (extractedRange : Option TimeRange)
    (execTool : ToolCallLike → ToolResult) (completions : Nat → CompletionOutcome)
    (genId : Nat → String) :
    ∀ (fuel round : Nat) (st : RoundState), countersOK st →
      countersOK
        (runRounds question extractedRange execTool completions genId fuel round st).1 := by
  intro fuel
  induction fuel with
  | zero => intro round st h; exact h
  | succ n ih =>
    intro round st h
    cases hc : completions round with
    | throwErr e =>
      simp only [runRounds, hc]
      exact ⟨by simpa [jobsEmits_append, jobsEmits] using h.1,
             by simpa [mutExecCount_append, mutExecCount] using h.2⟩
    | empty =>
      simp only [runRounds, hc]
      exact ⟨by simpa [jobsEmits_append, jobsEmits] using h.1,
             by simpa [mutExecCount_append, mutExecCount] using h.2⟩
    | msg content toolCalls functionCall =>
      simp only [runRounds, hc]
      repeat' split
      all_goals first
        | exact ih _ _ ((execCalls_facts _ _ _ _ _).1
            ⟨by simpa [jobsEmits_append, jobsEmits] using h.1,
             by simpa [mutExecCount_append, mutExecCount] using h.2⟩)
        | exact ⟨by simpa [jobsEmits_append, jobsEmits] using h.1,
                 by simpa [mutExecCount_append, mutExecCount] using h.2⟩

/-- The round loop issues at most `fuel` further model calls. -/
theorem runRounds_modelCalls (question : String) (extractedRange : Option TimeRange)
    (execTool : ToolCallLike → ToolResult) (completions : Nat → CompletionOutcome)
    (genId : Nat → String) :
    ∀ (fuel round : Nat) (st : RoundState),
      modelCallCount
          (runRounds question extractedRange execTool completions genId fuel round st).1.trace ≤
        modelCallCount st.trace + fuel := by
  intro fuel
  induction fuel with
  | zero => intro round st; exact Nat.le_add_right _ 0
  | succ n ih =>
    intro round st
    cases hc : completions round with
    | throwErr e =>
      simp only [runRounds, hc]
      simp [modelCallCount_append, modelCallCount]
    | empty =>
      simp only [runRounds, hc]
      simp [modelCallCount_append, modelCallCount]
    | msg content toolCalls functionCall =>
      simp only [runRounds, hc]
      repeat' split
      all_goals first
        | exact le_trans (ih _ _)
            (by rw [(execCalls_facts _ _ _ _ _).2.1]
                simp [modelCallCount_append, modelCallCount]
                omega)
        | (simp [modelCallCount_append, modelCallCount])

/-- The round loop performs no store write. -/
theorem runRounds_storeWrites (question : String) (extractedRange : Option TimeRange)
    (execTool : ToolCallLike → ToolResult) (completions : Nat → CompletionOutcome)
    (genId : Nat → String) :
    ∀ (fuel round : Nat) (st : RoundState),
      storeWrites
          (runRounds question extractedRange execTool completions genId fuel round st).1.trace =
        storeWrites st.trace := by
  intro fuel
  induction fuel with
  | zero => intro round st; rfl
  | succ n ih =>
    intro round st
    cases hc : completions round with
    | throwErr e =>
      simp only [runRounds, hc]
      simp [storeWrites_append, storeWrites]
    | empty =>
      simp only [runRounds, hc]
      simp [storeWrites_append, storeWrites]
    | msg content toolCalls functionCall =>
      simp only [runRounds, hc]
      repeat' split
      all_goals first
        | (rw [ih _ _, (execCalls_facts _ _ _ _ _).2.2]
           simp [storeWrites_append, storeWrites])
        | (simp [storeWrites_append, storeWrites])

/-- The round loop records mutating executions only for mutating tool
names, provided the executor itself does. -/
theorem runRounds_mutNames (question : String) (extractedRange : Option TimeRange)
    (execTool : ToolCallLike → ToolResult) (completions : Nat → CompletionOutcome)
    (genId : Nat → String)
    (hexec : ∀ c, (execTool c).didMutate = true →
      c.function.name ∈ ["schedule_event", "edit_event", "delete_event"]) :
    ∀ (fuel round : Nat) (st : RoundState),
      (∀ name, Effect.toolExec name true ∈ st.trace →
        name ∈ ["schedule_event", "edit_event", "delete_event"]) →
      ∀ name,
        Effect.toolExec name true ∈
          (runRounds question extractedRange execTool completions genId fuel round st).1.trace →
        name ∈ ["schedule_event", "edit_event", "delete_event"] := by
  intro fuel
  induction fuel with
  | zero => intro round st h; exact h
  | succ n ih =>
    intro round st h
    cases hc : completions round with
    | throwErr e =>
      simp only [runRounds, hc]
      intro name hmem
      refine h name ?_
      simpa using hmem
    | empty =>
      simp only [runRounds, hc]
      intro name hmem
      refine h name ?_
      simpa using hmem
    | msg content toolCalls functionCall =>
      simp only [runRounds, hc]
      repeat' split
      all_goals first
        | exact ih _ _ (execCalls_mutNames _ _ _ hexec _ _
            (fun name hmem => h name (by simpa using hmem)))
        | exact fun name hmem => h name (by simpa using hmem)

/-- If no completion round rejects, the loop always ends normally. -/
theorem runRounds_finished (question : String) (extractedRange : Option TimeRange)
    (execTool : ToolCallLike → ToolResult) (completions : Nat → CompletionOutcome)
    (genId : Nat → String)
    (hnothrow : ∀ r e, completions r ≠ .throwErr e) :
    ∀ (fuel round : Nat) (st : RoundState),
      (runRounds question extractedRange execTool completions genId fuel round st).2 =
        .finished := by
  intro fuel
  induction fuel with
  | zero => intro round st; rfl
  | succ n ih =>
    intro round st
    cases hc : completions round with
    | throwErr e => exact absurd hc (hnothrow round e)
    | empty => simp only [runRounds, hc]
    | msg content toolCalls functionCall =>
      simp only [runRounds, hc]
      repeat' split
      all_goals first
        | rfl
        | exact ih (round + 1) _

/-- Appending a plain assistant message preserves the answered-requests
walk in any pending state. -/
theorem answeredAux_append_assistant (c : String) :
    ∀ (l : List Msg) (pending : List ToolCallLike),
      answeredAux l pending = true →
      answeredAux (l ++ [Msg.assistant c]) pending = true := by
  intro l
  induction l with
  | nil =>
    intro pending h
    cases pending with
    | nil => rfl
    | cons p ps => simp [answeredAux] at h
  | cons m rest ih =>
    intro pending h
    cases pending with
    | nil =>
      cases m with
      | user s => exact ih _ h
      | assistant s => exact ih _ h
      | assistantToolCalls s cs => exact ih _ h
      | assistantFnCall s f => exact ih _ h
      | toolMsg i o => exact absurd h (by simp [answeredAux])
      | functionMsg nm o => exact absurd h (by simp [answeredAux])
    | cons p ps =>
      cases m with
      | toolMsg i o => exact ih _ h
      | functionMsg nm o => exact ih _ h
      | user s => exact absurd h (by simp [answeredAux])
      | assistant s => exact absurd h (by simp [answeredAux])
      | assistantToolCalls s cs => exact absurd h (by simp [answeredAux])
      | assistantFnCall s f => exact absurd h (by simp [answeredAux])

/-- C3: when the Clarification Gate defers in a round, that round appends
exactly one plain assistant message carrying the fixed clarification
prompt, emits the prompt on the text stream, executes no tool call, issues
no further model call, and terminates the round sequence; the pending
tool-call requests are discarded, so the answered-requests invariant of
the history is preserved. -/
theorem C3_clarification_deferral (question : String) (extractedRange : Option TimeRange)
    (execTool : ToolCallLike → ToolResult) (completions : Nat → CompletionOutcome)
    (genId : Nat → String) (fuel round : Nat) (st : RoundState)
    (content : Option String) (toolCalls : List ToolCallLike)
    (functionCall : Option FnCall)
    (hc : completions round = .msg content toolCalls functionCall)
    (hsome : (toolCalls.isEmpty && functionCall.isNone) = false)
    (hgate : shouldAskClarificationBeforeMutation question extractedRange
      (toExecutable toolCalls functionCall) = true) :
    runRounds question extractedRange execTool completions genId (fuel + 1) round st =
      ({ st with
          history := st.history ++ [Msg.assistant buildClarificationPrompt],
          trace := st.trace ++
            [Effect.statusUpdate ("conversation.model_round_" ++ toString (round + 1)),
             Effect.modelCall round,
             Effect.textAppend buildClarificationPrompt] }, .finished) ∧
    (toolRequestsAnswered st.history = true →
      toolRequestsAnswered (st.history ++ [Msg.assistant buildClarificationPrompt]) = true) := by
  constructor
  · simp only [runRounds, hc, hsome, Bool.false_eq_true, if_false, hgate, if_true]
    simp
  · intro h
    exact answeredAux_append_assistant _ st.history [] h

/-- A tool executor that is never reached. -/
def trivialExec : ToolCallLike → ToolResult := fun _ => ⟨.errOut "unused", false⟩

/-- A fixed id generator. -/
def gen0 : Nat → String := fun _ => "gen"

/-- Completions requesting an under-specified schedule in every round. -/
def clarCompletions : Nat → CompletionOutcome :=
  fun _ => .msg none [incompleteScheduleCall] none

/-- Loop state holding only the ambiguous user question. -/
def stClar : RoundState := ⟨[Msg.user ambiguousQ], 0, [], 0⟩

/-- Witness for C3: on the ambiguous scheduling question the first round
defers and produces exactly the clarification prompt. -/
theorem C3_clarification_deferral_witness :
    runRounds ambiguousQ none trivialExec clarCompletions gen0 8 0 stClar =
      (⟨[Msg.user ambiguousQ, Msg.assistant buildClarificationPrompt], 0,
        [Effect.statusUpdate "conversation.model_round_1", Effect.modelCall 0,
         Effect.textAppend buildClarificationPrompt], 0⟩, .finished) :=
  (C3_clarification_deferral ambiguousQ none trivialExec clarCompletions gen0 7 0 stClar
    none [incompleteScheduleCall] none rfl (by decide) (by decide)).1

/-- C9: a request issues at most `MAX_TOOL_ROUNDS` (8) model rounds,
whatever every round returns. -/
theorem C9_round_budget (inp : RequestInput) (store : Store) :
    modelCallCount (runRequestBody inp store).2 ≤ MAX_TOOL_ROUNDS := by
  simp only [runRequestBody]
  cases hcfg : inp.configOutcome with
  | error e =>
    simp only [hcfg]
    simp [modelCallCount_append, catchTrace, finallyTrace, modelCallCount]
  | ok u =>
    simp only [hcfg]
    have hm := runRounds_modelCalls inp.question
      (extractTimeRangeFromQuestion inp.extractOutcome inp.jsonParse inp.dateValue)
      inp.execTool inp.completions inp.genId MAX_TOOL_ROUNDS 0
      ⟨(store inp.threadId).getD [] ++ [Msg.user inp.question], 0,
       [Effect.statusUpdate "conversation.extract_range"] ++
        [Effect.rangeEmit
          (extractTimeRangeFromQuestion inp.extractOutcome inp.jsonParse inp.dateValue)], 0⟩
    simp only [modelCallCount, List.filter_cons, List.filter_nil] at hm
    split
    · simp only [modelCallCount_append]
      simp only [modelCallCount, finallyTrace, List.filter_cons, List.filter_nil]
      simpa [modelCallCount] using hm
    · simp only [modelCallCount_append]
      simp only [modelCallCount, catchTrace, finallyTrace, List.filter_cons,
        List.filter_nil]
      simpa [modelCallCount] using hm

/-- C7: the store invariant "every stored history has at most 30
messages" is preserved by any request (every write goes through the
`slice(-30)` truncation). -/
theorem C7_store_bounded (inp : RequestInput) (store : Store)
    (hstore : ∀ tid hist, store tid = some hist → hist.length ≤ 30)
    (tid : String) (hist : List Msg)
    (hget : (runRequestBody inp store).1 tid = some hist) :
    hist.length ≤ 30 := by
  simp only [runRequestBody] at hget
  cases hcfg : inp.configOutcome with
  | error e =>
    rw [hcfg] at hget
    exact hstore tid hist hget
  | ok u =>
    rw [hcfg] at hget
    dsimp only at hget
    split at hget
    · simp only [storeSet] at hget
      split at hget
      · cases hget
        exact sliceLast_length_le 30 _
      · exact hstore tid hist hget
    · exact hstore tid hist hget

/-- An all-`none` thread store. -/
def store0 : Store := fun _ => none

/-- A request whose single round is a plain final answer. -/
def cInp : RequestInput :=
  { question := "hi", threadId := "t1", extractOutcome := .failure "timeout",
    jsonParse := jsonParse0, dateValue := dateValue0,
    configOutcome := .ok (), completions := fun _ => .msg (some "done") [] none,
    execTool := trivialExec, genId := gen0 }

/-- Witness for C7: after the concrete request, the history stored for its
thread is within the bound. -/
theorem C7_store_bounded_witness :
    ([Msg.user "hi", Msg.assistant "done"] : List Msg).length ≤ 30 :=
  C7_store_bounded cInp store0 (fun tid hist h => by simp [store0] at h)
    "t1" [Msg.user "hi", Msg.assistant "done"] (by rfl)

/-- A request whose first model round rejects. -/
def cInpThrow : RequestInput :=
  { cInp with completions := fun _ => .throwErr "boom" }

/-- Counterexample to C6 as stated: when the model call of a round throws,
the catch path runs and no store write happens — the thread store is left
untouched on the top-level error path — although all streams complete. -/
theorem C6_store_on_error_cex :
    storeWrites (runRequestBody cInpThrow store0).2 = [] ∧
    (runRequestBody cInpThrow store0).1 "t1" = none ∧
    ((runRequestBody cInpThrow store0).2.contains (Effect.streamDone "status")) = true := by
  exact ⟨rfl, rfl, rfl⟩

/-- C6 (amended): whenever the request body completes without throwing
(the final-answer, clarification-deferral and round-budget exits), the
history truncated to its most recent 30 messages is written to the thread
store, and this single write precedes the completion of the streams; on
the top-level error path the store write is skipped (the counterexample
exhibits that path). -/
theorem C6_store_before_streams_amended (inp : RequestInput) (store : Store)
    (hcfg : inp.configOutcome = .ok ())
    (hnothrow : ∀ r e, inp.completions r ≠ .throwErr e) :
    ∃ pre hist,
      (runRequestBody inp store).2 =
        pre ++ [Effect.storeWrite inp.threadId hist] ++ finallyTrace ∧
      storeWrites pre = [] ∧
      hist.length ≤ 30 ∧
      (∃ full, hist = sliceLast 30 full) ∧
      (runRequestBody inp store).1 inp.threadId = some hist := by
  simp only [runRequestBody, hcfg]
  have hfin := runRounds_finished inp.question
    (extractTimeRangeFromQuestion inp.extractOutcome inp.jsonParse inp.dateValue)
    inp.execTool inp.completions inp.genId hnothrow MAX_TOOL_ROUNDS 0
    ⟨(store inp.threadId).getD [] ++ [Msg.user inp.question], 0,
     [Effect.statusUpdate "conversation.extract_range"] ++
      [Effect.rangeEmit
        (extractTimeRangeFromQuestion inp.extractOutcome inp.jsonParse inp.dateValue)], 0⟩
  rw [hfin]
  dsimp only
  refine ⟨_, _, rfl, ?_, sliceLast_length_le 30 _, ⟨_, rfl⟩, ?_⟩
  · rw [runRounds_storeWrites]
    simp [storeWrites]
  · simp [storeSet]

/-- Witness for C6 (amended): the concrete single-round request stores its
truncated history before completing its streams. -/
theorem C6_store_before_streams_amended_witness :
    ∃ pre hist,
      (runRequestBody cInp store0).2 =
        pre ++ [Effect.storeWrite cInp.threadId hist] ++ finallyTrace ∧
      storeWrites pre = [] ∧
      hist.length ≤ 30 ∧
      (∃ full, hist = sliceLast 30 full) ∧
      (runRequestBody cInp store0).1 cInp.threadId = some hist :=
  C6_store_before_streams_amended cInp store0 rfl (fun r e => by simp [cInp])

/-- Strict ascending chain from `s` through `range' (s+1) k`. -/
theorem chain_lt_cons_range (k : Nat) :
    ∀ s : Nat, List.Chain' (fun a b => a < b) (s :: List.range' (s + 1) k) := by
  induction k with
  | zero => intro s; simp
  | succ n ih =>
    intro s
    rw [List.range'_succ (s + 1) n 1]
    refine List.chain'_cons.mpr ⟨Nat.lt_succ_self s, ?_⟩
    simpa using ih (s + 1)

/-- C8: the mutation counter increments by exactly one per executed tool
call reporting `didMutate = true` — the emitted values on the
mutation-count stream are exactly `1, …, k` for `k` such executions, which
together with the initial `0` of the stream forms a strictly increasing
sequence — and with the real dispatcher as executor a mutating execution
can only come from one of the mutating tools, never from an error or
read-only result. -/
theorem C8_mutation_counter (inp : RequestInput) (store : Store)
    (api : CalendarApi) (userEmail : Option String)
    (hexec : inp.execTool = fun c => executeCalendarTool c api userEmail) :
    jobsEmits (runRequestBody inp store).2 =
      List.range' 1 (mutExecCount (runRequestBody inp store).2) ∧
    List.Chain' (fun a b => a < b)
      (0 :: jobsEmits (runRequestBody inp store).2) ∧
    (∀ name, Effect.toolExec name true ∈ (runRequestBody inp store).2 →
      name ∈ ["schedule_event", "edit_event", "delete_event"]) := by
  simp only [runRequestBody]
  cases hcfg : inp.configOutcome with
  | error e =>
    simp only [hcfg]
    refine ⟨?_, ?_, ?_⟩ <;>
      simp [jobsEmits, mutExecCount, catchTrace, finallyTrace]
  | ok u =>
    simp only [hcfg]
    have hcnt := runRounds_counters inp.question
      (extractTimeRangeFromQuestion inp.extractOutcome inp.jsonParse inp.dateValue)
      inp.execTool inp.completions inp.genId MAX_TOOL_ROUNDS 0
      ⟨(store inp.threadId).getD [] ++ [Msg.user inp.question], 0,
       [Effect.statusUpdate "conversation.extract_range"] ++
        [Effect.rangeEmit
          (extractTimeRangeFromQuestion inp.extractOutcome inp.jsonParse inp.dateValue)], 0⟩
      ⟨by simp [jobsEmits], by simp [mutExecCount]⟩
    have hmn := runRounds_mutNames inp.question
      (extractTimeRangeFromQuestion inp.extractOutcome inp.jsonParse inp.dateValue)
      inp.execTool inp.completions inp.genId
      (fun c hc => executeCalendarTool_mutate_name c api userEmail (by rw [hexec] at hc; exact hc))
      MAX_TOOL_ROUNDS 0
      ⟨(store inp.threadId).getD [] ++ [Msg.user inp.question], 0,
       [Effect.statusUpdate "conversation.extract_range"] ++
        [Effect.rangeEmit
          (extractTimeRangeFromQuestion inp.extractOutcome inp.jsonParse inp.dateValue)], 0⟩
      (by intro name hmem; simp at hmem)
    rcases hcnt with ⟨hje, hme⟩
    split
    · refine ⟨?_, ?_, ?_⟩
      · rw [jobsEmits_append, jobsEmits_append, mutExecCount_append, mutExecCount_append,
          hje, hme]
        simp [jobsEmits, mutExecCount, finallyTrace]
      · rw [jobsEmits_append, jobsEmits_append, hje]
        simpa [jobsEmits, finallyTrace] using chain_lt_cons_range _ 0
      · intro name hmem
        simp only [List.mem_append] at hmem
        rcases hmem with (hmem | hmem) | hmem
        · exact hmn name hmem
        · exact absurd hmem (by simp)
        · exact absurd hmem (by simp [finallyTrace])
    · refine ⟨?_, ?_, ?_⟩
      · rw [jobsEmits_append, jobsEmits_append, mutExecCount_append, mutExecCount_append,
          hje, hme]
        simp [jobsEmits, mutExecCount, catchTrace, finallyTrace]
      · rw [jobsEmits_append, jobsEmits_append, hje]
        simpa [jobsEmits, catchTrace, finallyTrace] using chain_lt_cons_range _ 0
      · intro name hmem
        simp only [List.mem_append] at hmem
        rcases hmem with (hmem | hmem) | hmem
        · exact hmn name hmem
        · exact absurd hmem (by simp [catchTrace])
        · exact absurd hmem (by simp [finallyTrace])

/-- A calendar client whose every method resolves. -/
def apiOkDelete : CalendarApi :=
  { calendarsGetPrimary := .ok (some "UTC")
    eventsList := fun _ _ _ => .ok []
    eventsInsert := fun _ => .ok "inserted"
    eventsUpdate := fun _ _ => .ok "updated"
    eventsDelete := fun _ => .ok "deleted"
    newDateIso := fun _ => .error .nonObject }

/-- A delete request with its identifier present. -/
def deleteCall : ToolCallLike :=
  { id := some "call_5",
    function :=
      { name := "delete_event",
        arguments := .wellFormed [("event_id", .vstr "E123")] } }

/-- A request whose first round deletes an event and whose second round is
the final answer, executed by the real dispatcher. -/
def cInpExec : RequestInput :=
  { cInp with
    completions := fun r =>
      if r == 0 then .msg none [deleteCall] none else .msg (some "done") [] none,
    execTool := fun c => executeCalendarTool c apiOkDelete none }

/-- Witness for C8: on the concrete delete-then-answer request the stream
emits exactly the ascending counter values. -/
theorem C8_mutation_counter_witness :
    jobsEmits (runRequestBody cInpExec store0).2 =
      List.range' 1 (mutExecCount (runRequestBody cInpExec store0).2) ∧
    List.Chain' (fun a b => a < b) (0 :: jobsEmits (runRequestBody cInpExec store0).2) ∧
    jobsEmits (runRequestBody cInpExec store0).2 = [1] :=
  ⟨(C8_mutation_counter cInpExec store0 apiOkDelete none rfl).1,
   (C8_mutation_counter cInpExec store0 apiOkDelete none rfl).2.1,
   by rfl⟩

end CalendarAI
